import Mathlib

/-!
Shallow embedding of the interview-availability engine of
candidate_fyi_takehome_project (src/candidate_fyi_takehome_project/interviews/views.py),
together with proofs of the specification claims about it.

Time is modelled as absolute UTC instants in microseconds (Nat), the precision of
Python datetimes; UTC day boundaries fall on multiples of a day, so
dt.replace(hour=h, minute=0, second=0, microsecond=0) is floor-to-day plus h hours.
ISO-8601 parsing (parse_iso8601) and strftime formatting are external primitives of
the standard library; they are passed as function parameters to the definitions
that use them.
-/

namespace Interviews

/-- Microseconds in one minute (timedelta(minutes=1)). -/
def USEC_MIN : Nat := 60000000

/-- Microseconds in one hour. -/
def HOUR_US : Nat := 3600000000

/-- Microseconds in one UTC day. -/
def DAY_US : Nat := 86400000000

/-- Source constant HALF_HOUR = timedelta(minutes=30), in microseconds. -/
def HALF_HOUR : Nat := 1800000000

/-- Source constant DEFAULT_SEARCH_DAYS = 7. -/
def DEFAULT_SEARCH_DAYS : Nat := 7

/-- Source constant DEFAULT_START_HOUR = 9. -/
def DEFAULT_START_HOUR : Nat := 9

/-- Source constant DEFAULT_END_HOUR = 17. -/
def DEFAULT_END_HOUR : Nat := 17

/-- One busy block as delivered by the schedule provider: a dict whose keys
"start", "end", "startTime", "endTime" each may be absent (none) or hold a string.
The field end_ models the "end" key (end is a Lean keyword). -/
structure Block where
  start : Option String
  end_ : Option String
  startTime : Option String
  endTime : Option String
deriving DecidableEq

/-- One interviewer entry of the busy_schedules list: person["interviewerId"],
person.get("name", ...) (optional), person.get("busy", []) (the block list). -/
structure Person where
  interviewerId : Nat
  name : Option String
  busy : List Block
deriving DecidableEq

/-- Python truthiness of a dict lookup that may be absent (None) or an empty
string: both are falsy, a non-empty string is truthy. -/
def truthy : Option String → Bool
  | none => false
  | some s => !(s == "")

/-- Python expression a or b on the two lookups: the first operand if it is
truthy, otherwise the second. -/
def pyOr (a b : Option String) : Option String :=
  if truthy a then a else b

/-- Value of raw_start = block.get(k) or block.get(kLegacy) followed by the
truthiness test of the source (if not raw_start: continue): some value when the
combined lookup is truthy, none when the block is treated as missing the field. -/
def rawField (a b : Option String) : Option String :=
  if truthy (pyOr a b) then pyOr a b else none

/-- Source intersect_half_open_interval: intersection of [start1, end1) and
[start2, end2), or none if the clipped pair is empty (views.py lines 67-74). -/
def intersect_half_open_interval (start1 end1 start2 end2 : Nat) : Option (Nat × Nat) :=
  let s := max start1 start2
  let e := min end1 end2
  if s < e then some (s, e) else none

/-- Parsed valid busy interval of a block, per the merger loop (views.py lines
118-131): extract raw_start/raw_end with the legacy-key fallback and the
truthiness test, parse both, and drop the block when busy_start >= busy_end. -/
def blockInterval (parse : String → Nat) (b : Block) : Option (Nat × Nat) :=
  match rawField b.start b.startTime, rawField b.end_ b.endTime with
  | some rs, some re =>
      let busy_start := parse rs
      let busy_end := parse re
      if busy_end ≤ busy_start then none else some (busy_start, busy_end)
  | _, _ => none

/-- Valid busy interval of a block clipped to the search window (views.py lines
133-135): overlap = intersect_half_open_interval(busy_start, busy_end, search_start, search_end). -/
def blockClipped (parse : String → Nat) (S E : Nat) (b : Block) : Option (Nat × Nat) :=
  (blockInterval parse b).bind fun i => intersect_half_open_interval i.1 i.2 S E

/-- Sweep events contributed by one block (views.py lines 135-139): +1 at the
clipped start, -1 at the clipped end, nothing for a dropped block. -/
def blockEvents (parse : String → Nat) (S E : Nat) (b : Block) : List (Nat × Int) :=
  match blockClipped parse S E b with
  | none => []
  | some (s, e) => [(s, 1), (e, -1)]

/-- Source ceil_to_half_hour_boundary (views.py lines 76-92): zero out the
sub-minute part, bumping to the next minute when seconds or microseconds are
nonzero, then advance to the next :00/:30 mark when minute % 30 is nonzero. -/
def ceil_to_half_hour_boundary (t : Nat) : Nat :=
  let t1 := if t % 60000000 ≠ 0 then (t - t % 60000000) + 60000000 else t
  let r := t1 / 60000000 % 60 % 30
  if r ≠ 0 then t1 + (30 - r) * 60000000 else t1

/-- Ordering key of the event sort (views.py line 146): by timestamp, and at
equal timestamps by delta, so -1 (becomes free) precedes +1 (becomes busy). -/
def eventLE (a b : Nat × Int) : Prop :=
  a.1 < b.1 ∨ (a.1 = b.1 ∧ a.2 ≤ b.2)

instance : DecidableRel eventLE := fun a b => by
  unfold eventLE; infer_instance

instance : IsTotal (Nat × Int) eventLE where
  total a b := by unfold eventLE; omega

instance : IsTrans (Nat × Int) eventLE where
  trans a b c := by unfold eventLE; omega

/-- Stable sort of the event list by (timestamp, delta), modelling
events.sort(key=lambda item: (item[0], item[1])). -/
def sortEvents (events : List (Nat × Int)) : List (Nat × Int) :=
  List.insertionSort eventLE events

/-- Inner while loop of the sweep (views.py lines 163-166): consume the maximal
prefix of events sharing the timestamp t, returning the summed deltas and the
remaining events. -/
def splitSame (t : Nat) : List (Nat × Int) → Int × List (Nat × Int)
  | [] => (0, [])
  | (u, d) :: rest =>
      if u = t then
        let p := splitSame t rest
        (d + p.1, p.2)
      else (0, (u, d) :: rest)

/-- Outer while loop of the sweep (views.py lines 155-169), fuel-indexed by the
loop bound: at each distinct timestamp t, emit the free window [prev_time, t)
when nobody is busy, then apply all deltas at t atomically and advance. The
while loop runs at most len(events) iterations, which bounds the fuel. -/
def sweepAux : Nat → Int → Nat → List (Nat × Int) → List (Nat × Nat)
  | 0, _, _, _ => []
  | _, _, _, [] => []
  | fuel + 1, active_busy, prev_time, (t, d) :: rest =>
      let head := if active_busy = 0 ∧ prev_time < t then [(prev_time, t)] else []
      let p := splitSame t rest
      head ++ sweepAux fuel (active_busy + (d + p.1)) t p.2

/-- Timeline sweep over the sorted events (views.py lines 148-169). -/
def sweep (active_busy : Int) (prev_time : Nat) (events : List (Nat × Int)) : List (Nat × Nat) :=
  sweepAux events.length active_busy prev_time events

/-- Event list built by the merger (views.py lines 116-143): two events per
surviving clipped block, in iteration order, then the two zero-delta boundary
markers at search_start and search_end. -/
def eventsOf (parse : String → Nat) (busy_schedules : List Person) (S E : Nat) : List (Nat × Int) :=
  (busy_schedules.flatMap fun person => person.busy.flatMap (blockEvents parse S E))
    ++ [(S, 0), (E, 0)]

/-- Source compute_common_free_windows (views.py lines 94-171): build the event
list, sort it by (timestamp, delta), and sweep it starting from active_busy = 0,
prev_time = search_start. -/
def compute_common_free_windows (parse : String → Nat) (busy_schedules : List Person)
    (search_start search_end : Nat) : List (Nat × Nat) :=
  sweep 0 search_start (sortEvents (eventsOf parse busy_schedules search_start search_end))

/-- Python dt.replace(hour=h, minute=0, second=0, microsecond=0) on a UTC
instant: midnight of the instant's own UTC date plus h hours. -/
def replace_hour_floor (t h : Nat) : Nat :=
  t / DAY_US * DAY_US + h * HOUR_US

/-- Source is_within_workday_utc (views.py lines 177-189): the slot lies in
[day_open, day_close] anchored to the slot start's own UTC date. -/
def is_within_workday_utc (slot_start slot_end workday_start_hour workday_end_hour : Nat) : Bool :=
  let day_open := replace_hour_floor slot_start workday_start_hour
  let day_close := replace_hour_floor slot_start workday_end_hour
  decide (day_open ≤ slot_start ∧ slot_end ≤ day_close)

/-- Inner while loop of the slot expansion (views.py lines 261-273), fuel-indexed:
starting from slot_start, step by HALF_HOUR while the slot still fits in the
window. The source condition slot_start <= window_end - duration_delta is written
subtraction-free as slot_start + dur <= window_end (equal over the integers). -/
def expand_window_slots : Nat → Nat → Nat → Nat → Nat → Nat → List (Nat × Nat)
  | 0, _, _, _, _, _ => []
  | fuel + 1, slot_start, window_end, dur, wsh, weh =>
      if slot_start + dur ≤ window_end then
        (if is_within_workday_utc slot_start (slot_start + dur) wsh weh then
          [(slot_start, slot_start + dur)]
        else []) ++ expand_window_slots fuel (slot_start + HALF_HOUR) window_end dur wsh weh
      else []

/-- Slot expansion over all free windows (views.py lines 253-273): for each
window, round the start up to the grid (never before min_slot_start) and emit
every fitting slot. The fuel window_end + 1 dominates the iteration count, since
each iteration advances slot_start by HALF_HOUR >= 1 microsecond. -/
def expand_windows (free_windows : List (Nat × Nat)) (min_slot_start dur wsh weh : Nat) :
    List (Nat × Nat) :=
  free_windows.flatMap fun w =>
    expand_window_slots (w.2 + 1) (ceil_to_half_hour_boundary (max w.1 min_slot_start))
      w.2 dur wsh weh

/-- Validated query parameters (serializers.py AvailabilityQuerySerializer):
all four fields optional; datetimes as instants, hours as integers. -/
structure Query where
  start : Option Nat
  end_ : Option Nat
  start_hour : Option Nat
  end_hour : Option Nat
deriving DecidableEq

/-- Field-level check min_value=0, max_value=23 of the hour fields. -/
def hourOutOfRange : Option Nat → Bool
  | none => false
  | some h => decide (23 < h)

/-- Cross-field serializer check: if both start and end are provided, end must
be after start (serializers.py lines 14-17). -/
def serializerRangeBad : Option Nat → Option Nat → Bool
  | some s, some e => decide (e ≤ s)
  | _, _ => false

/-- Cross-field serializer check: if both hours are provided, start_hour must be
less than end_hour (serializers.py lines 20-23). -/
def serializerHoursBad : Option Nat → Option Nat → Bool
  | some sh, some eh => decide (eh ≤ sh)
  | _, _ => false

/-- Source InterviewAvailabilityView.get (views.py lines 208-311), restricted to
the authoritative availability computation. The template duration (minutes) and
the fetched busy schedules are inputs; the result is the availableSlots list as
instant pairs, or the error message of the rejecting check. Serializer
validation runs first, then defaults are applied (start defaults to now + 24h,
end to start + 7 days, hours to 9-17), then the view's own range guards, then
the 24-hour/alignment floor, the merge, and the slot expansion. -/
def availability_get (duration_minutes : Nat) (q : Query) (now : Nat)
    (parse : String → Nat) (busy_schedules : List Person) :
    Except String (List (Nat × Nat)) :=
  if hourOutOfRange q.start_hour then Except.error "start_hour must be between 0 and 23"
  else if hourOutOfRange q.end_hour then Except.error "end_hour must be between 0 and 23"
  else if serializerRangeBad q.start q.end_ then Except.error "end must be after start"
  else if serializerHoursBad q.start_hour q.end_hour then
    Except.error "end_hour must be after start_hour"
  else
    let earliest_allowed := now + 24 * HOUR_US
    let search_start := q.start.getD earliest_allowed
    let search_end := q.end_.getD (search_start + DEFAULT_SEARCH_DAYS * DAY_US)
    if search_end ≤ search_start then Except.error "end must be after start"
    else
      let workday_start_hour := q.start_hour.getD DEFAULT_START_HOUR
      let workday_end_hour := q.end_hour.getD DEFAULT_END_HOUR
      if workday_end_hour ≤ workday_start_hour then
        Except.error "end_hour must be after start_hour"
      else
        let min_slot_start := ceil_to_half_hour_boundary (max search_start earliest_allowed)
        let free_windows :=
          compute_common_free_windows parse busy_schedules search_start search_end
        Except.ok (expand_windows free_windows min_slot_start
          (duration_minutes * USEC_MIN) workday_start_hour workday_end_hour)

/-- One entry of the human-readable busy mirror. -/
structure BusyDisplay where
  interviewerId : Nat
  name : String
  busyTimes : List (String × String)
deriving DecidableEq

/-- Source format_interviewer_busy_times_human_readable (views.py lines 47-65):
per person, keep the blocks whose start and end (with the startTime/endTime
fallback) are truthy and format both ends; fmt abstracts
format_datetime_human_readable. -/
def format_interviewer_busy_times_human_readable (fmt : String → String)
    (busy_schedules : List Person) : List BusyDisplay :=
  busy_schedules.map fun person =>
    { interviewerId := person.interviewerId
      name := person.name.getD "Unknown"
      busyTimes := person.busy.filterMap fun block =>
        match rawField block.start block.startTime, rawField block.end_ block.endTime with
        | some rs, some re => some (fmt rs, fmt re)
        | _, _ => none }

/-! ### Arithmetic facts about the half-hour ceiling -/

/-- Closed form of the ceiling: the least multiple of 30 minutes at or after t. -/
theorem ceil_closed_form (t : Nat) :
    ceil_to_half_hour_boundary t = 1800000000 * ((t + 1799999999) / 1800000000) := by
  simp only [ceil_to_half_hour_boundary]
  split <;> split <;> omega

/-- The ceiling never moves an instant backwards. -/
theorem le_ceil (t : Nat) : t ≤ ceil_to_half_hour_boundary t := by
  rw [ceil_closed_form]; omega

/-- The ceiling is monotone. -/
theorem ceil_mono {a b : Nat} (h : a ≤ b) :
    ceil_to_half_hour_boundary a ≤ ceil_to_half_hour_boundary b := by
  rw [ceil_closed_form, ceil_closed_form]; omega

/-- The ceiling lands on a 30-minute boundary. -/
theorem ceil_mod (t : Nat) : ceil_to_half_hour_boundary t % 1800000000 = 0 := by
  rw [ceil_closed_form]; omega

/-- An instant on a 30-minute boundary is a fixed point of the ceiling. -/
theorem ceil_of_boundary {t : Nat} (h : t % 1800000000 = 0) :
    ceil_to_half_hour_boundary t = t := by
  rw [ceil_closed_form]; omega

/-- C4: ceil_to_half_hour_boundary leaves an instant exactly on a :00/:30
boundary (zero seconds and microseconds) unchanged, and any sub-minute residue
advances to the next 30-minute boundary even when the minute is on a boundary:
for any day d, 12:00:00.000 maps to 12:00, 12:00:00.001 (one millisecond of
residue) maps to 12:30, and 12:30:00.001 maps to 13:00. -/
theorem ceil_residue_rule :
    (∀ t : Nat, t % HALF_HOUR = 0 → ceil_to_half_hour_boundary t = t) ∧
    (∀ q r : Nat, 0 < r → r < USEC_MIN →
      ceil_to_half_hour_boundary (q * HALF_HOUR + r) = (q + 1) * HALF_HOUR) ∧
    (∀ d : Nat, ceil_to_half_hour_boundary (d * DAY_US + 12 * HOUR_US)
      = d * DAY_US + 12 * HOUR_US) ∧
    (∀ d : Nat, ceil_to_half_hour_boundary (d * DAY_US + 12 * HOUR_US + 1000)
      = d * DAY_US + 12 * HOUR_US + 30 * USEC_MIN) ∧
    (∀ d : Nat, ceil_to_half_hour_boundary (d * DAY_US + 12 * HOUR_US + 30 * USEC_MIN + 1000)
      = d * DAY_US + 13 * HOUR_US) := by
  refine ⟨fun t ht => ?_, fun q r h0 h1 => ?_, fun d => ?_, fun d => ?_, fun d => ?_⟩ <;>
    simp only [HALF_HOUR, USEC_MIN, DAY_US, HOUR_US] at * <;>
    rw [ceil_closed_form] <;> omega

/-- C4 witness: the three example instants of the claim, evaluated on day 0,
plus a boundary instant for the idempotence clause. -/
theorem ceil_residue_rule_witness :
    ceil_to_half_hour_boundary 1800000000 = 1800000000 ∧
    ceil_to_half_hour_boundary 43200000000 = 43200000000 ∧
    ceil_to_half_hour_boundary 43200001000 = 45000000000 ∧
    ceil_to_half_hour_boundary 45000001000 = 46800000000 :=
  ⟨ceil_residue_rule.1 1800000000 (by decide),
   ceil_residue_rule.2.2.1 0,
   ceil_residue_rule.2.2.2.1 0,
   ceil_residue_rule.2.2.2.2 0⟩

/-- C9: ceil_to_half_hour_boundary is idempotent on every instant. -/
theorem ceil_idempotent (t : Nat) :
    ceil_to_half_hour_boundary (ceil_to_half_hour_boundary t) = ceil_to_half_hour_boundary t :=
  ceil_of_boundary (ceil_mod t)

/-! ### The sweep: one-event-at-a-time reformulation and its correctness -/

/-- Proof-side reformulation of the sweep that applies the deltas of a shared
timestamp one event at a time. It produces the same windows as sweep because a
window is only ever emitted at a strict increase of the timestamp. -/
def sweepOne (active : Int) (prev : Nat) : List (Nat × Int) → List (Nat × Nat)
  | [] => []
  | (t, d) :: rest =>
      (if active = 0 ∧ prev < t then [(prev, t)] else []) ++ sweepOne (active + d) t rest

/-- Decomposition performed by splitSame: the input splits as a maximal prefix of
events at timestamp t (whose deltas are summed) followed by the returned rest. -/
theorem splitSame_spec (t : Nat) (l : List (Nat × Int)) :
    ∃ pre, l = pre ++ (splitSame t l).2 ∧ (∀ e ∈ pre, e.1 = t) ∧
      (splitSame t l).1 = (pre.map Prod.snd).sum := by
  induction l with
  | nil => exact ⟨[], rfl, by simp, by simp [splitSame]⟩
  | cons hd rest ih =>
    obtain ⟨u, d⟩ := hd
    by_cases h : u = t
    · obtain ⟨pre, h1, h2, h3⟩ := ih
      subst h
      refine ⟨(u, d) :: pre, ?_, ?_, ?_⟩
      · simpa [splitSame] using h1
      · intro e he
        rcases List.mem_cons.mp he with rfl | hmem
        · rfl
        · exact h2 e hmem
      · simp [splitSame, h3]
    · exact ⟨[], by simp [splitSame, h], by simp, by simp [splitSame, h]⟩

/-- Processing a run of events that all share the current timestamp emits no
window and just accumulates their deltas. -/
theorem sweepOne_append_same (pre : List (Nat × Int)) :
    ∀ (rest : List (Nat × Int)) (a : Int) (t : Nat), (∀ e ∈ pre, e.1 = t) →
      sweepOne a t (pre ++ rest) = sweepOne (a + (pre.map Prod.snd).sum) t rest := by
  induction pre with
  | nil => intro rest a t _; simp
  | cons hd pre ih =>
    intro rest a t hall
    obtain ⟨u, d⟩ := hd
    have hu : u = t := hall (u, d) (by simp)
    subst hu
    have : sweepOne a u (((u, d) :: pre) ++ rest) = sweepOne (a + d) u (pre ++ rest) := by
      simp [sweepOne]
    rw [this, ih rest (a + d) u (fun e he => hall e (List.mem_cons_of_mem _ he))]
    congr 1
    simp [add_assoc]

/-- With fuel at least the number of events, the fuel-indexed sweep agrees with
the one-event-at-a-time reformulation. -/
theorem sweepAux_eq_sweepOne (n : Nat) :
    ∀ (evs : List (Nat × Int)) (a : Int) (p : Nat), evs.length ≤ n →
      sweepAux n a p evs = sweepOne a p evs := by
  induction n with
  | zero =>
    intro evs a p h
    rw [List.length_eq_zero.mp (Nat.le_zero.mp h)]
    rfl
  | succ n ih =>
    intro evs a p h
    match evs with
    | [] => rfl
    | (t, d) :: rest =>
      obtain ⟨pre, hdecomp, hall, hsum⟩ := splitSame_spec t rest
      have hlen : (splitSame t rest).2.length ≤ n := by
        have hd := congrArg List.length hdecomp
        simp only [List.length_append] at hd
        simp only [List.length_cons] at h
        omega
      simp only [sweepAux, sweepOne]
      rw [ih _ _ _ hlen]
      congr 1
      conv_rhs => rw [hdecomp]
      rw [sweepOne_append_same pre _ _ _ hall, hsum, add_assoc]

/-- The source sweep equals the one-event-at-a-time reformulation. -/
theorem sweep_eq_sweepOne (a : Int) (p : Nat) (evs : List (Nat × Int)) :
    sweep a p evs = sweepOne a p evs :=
  sweepAux_eq_sweepOne evs.length evs a p le_rfl

/-- Busy-count contribution of one event at the query point x: its delta if the
event is at or before x, else nothing. -/
def busyDelta (x : Nat) (e : Nat × Int) : Int :=
  if e.1 ≤ x then e.2 else 0

/-- Sum of the event deltas at or before x: the busy count at x once all events
of every interval are present. -/
def evsSum (l : List (Nat × Int)) (x : Nat) : Int :=
  (l.map (busyDelta x)).sum

theorem evsSum_nil (x : Nat) : evsSum [] x = 0 := rfl

theorem evsSum_cons (e : Nat × Int) (l : List (Nat × Int)) (x : Nat) :
    evsSum (e :: l) x = busyDelta x e + evsSum l x := by
  simp [evsSum]

theorem evsSum_append (l₁ l₂ : List (Nat × Int)) (x : Nat) :
    evsSum (l₁ ++ l₂) x = evsSum l₁ x + evsSum l₂ x := by
  simp [evsSum]

theorem evsSum_perm {l₁ l₂ : List (Nat × Int)} (h : l₁.Perm l₂) (x : Nat) :
    evsSum l₁ x = evsSum l₂ x :=
  (h.map (busyDelta x)).sum_eq

/-- Coverage theorem for the sweep: over a sorted event list whose timestamps
all lie at or after prev, a point x is covered by some emitted window exactly
when x is at or after prev, strictly before some event, and the running busy
count at x is zero. -/
theorem sweepOne_cover (x : Nat) :
    ∀ (evs : List (Nat × Int)) (active : Int) (prev : Nat),
      evs.Pairwise (fun a b => a.1 ≤ b.1) → (∀ e ∈ evs, prev ≤ e.1) →
      ((∃ w ∈ sweepOne active prev evs, w.1 ≤ x ∧ x < w.2) ↔
        (prev ≤ x ∧ (∃ e ∈ evs, x < e.1) ∧ active + evsSum evs x = 0)) := by
  intro evs
  induction evs with
  | nil =>
    intro a p _ _
    simp [sweepOne, evsSum]
  | cons hd rest ih =>
    obtain ⟨t, d⟩ := hd
    intro a p hsort hge
    have hpt : p ≤ t := hge (t, d) (by simp)
    have hsort' : rest.Pairwise (fun a b => a.1 ≤ b.1) := (List.pairwise_cons.mp hsort).2
    have hrest_ge : ∀ e ∈ rest, t ≤ e.1 := (List.pairwise_cons.mp hsort).1
    have hunf : sweepOne a p ((t, d) :: rest) =
        (if a = 0 ∧ p < t then [(p, t)] else []) ++ sweepOne (a + d) t rest := by
      simp [sweepOne]
    by_cases hx : x < t
    · have hsum0 : evsSum ((t, d) :: rest) x = 0 := by
        apply List.sum_eq_zero
        intro y hy
        obtain ⟨e, he, rfl⟩ := List.mem_map.mp hy
        have het : t ≤ e.1 := by
          rcases List.mem_cons.mp he with rfl | hmem
          · exact le_rfl
          · exact hrest_ge e hmem
        simp only [busyDelta]
        rw [if_neg (by omega)]
      constructor
      · rintro ⟨w, hw, hw1, hw2⟩
        rw [hunf] at hw
        rcases List.mem_append.mp hw with hmem | hmem
        · by_cases hcond : a = 0 ∧ p < t
          · rw [if_pos hcond] at hmem
            simp only [List.mem_singleton] at hmem
            subst hmem
            exact ⟨hw1, ⟨(t, d), by simp, hx⟩, by rw [hsum0]; omega⟩
          · rw [if_neg hcond] at hmem
            simp at hmem
        · have hres := (ih (a + d) t hsort' hrest_ge).mp ⟨w, hmem, hw1, hw2⟩
          omega
      · rintro ⟨hpx, -, hsum⟩
        rw [hsum0] at hsum
        have ha : a = 0 := by omega
        refine ⟨(p, t), ?_, hpx, hx⟩
        rw [hunf, if_pos ⟨ha, by omega⟩]
        simp
    · push_neg at hx
      have hcons : evsSum ((t, d) :: rest) x = d + evsSum rest x := by
        rw [evsSum_cons]
        simp [busyDelta, hx]
      constructor
      · rintro ⟨w, hw, hw1, hw2⟩
        rw [hunf] at hw
        rcases List.mem_append.mp hw with hmem | hmem
        · by_cases hcond : a = 0 ∧ p < t
          · rw [if_pos hcond] at hmem
            simp only [List.mem_singleton] at hmem
            subst hmem
            omega
          · rw [if_neg hcond] at hmem
            simp at hmem
        · have hres := (ih (a + d) t hsort' hrest_ge).mp ⟨w, hmem, hw1, hw2⟩
          obtain ⟨e, he, hxe⟩ := hres.2.1
          exact ⟨by omega, ⟨e, List.mem_cons_of_mem _ he, hxe⟩, by rw [hcons]; omega⟩
      · rintro ⟨hpx, ⟨e, he, hxe⟩, hsum⟩
        have he' : e ∈ rest := by
          rcases List.mem_cons.mp he with rfl | hmem
          · omega
          · exact hmem
        rw [hcons] at hsum
        obtain ⟨w, hw, hc⟩ :=
          (ih (a + d) t hsort' hrest_ge).mpr ⟨hx, ⟨e, he', hxe⟩, by omega⟩
        refine ⟨w, ?_, hc⟩
        rw [hunf]
        exact List.mem_append.mpr (Or.inr hw)

/-- Every window the sweep emits is nonempty, starts at or after prev, and ends
at or before some event timestamp. -/
theorem sweepOne_bounds :
    ∀ (evs : List (Nat × Int)) (a : Int) (p : Nat),
      evs.Pairwise (fun a b => a.1 ≤ b.1) → (∀ e ∈ evs, p ≤ e.1) →
      ∀ w ∈ sweepOne a p evs, p ≤ w.1 ∧ w.1 < w.2 ∧ ∃ e ∈ evs, w.2 ≤ e.1 := by
  intro evs
  induction evs with
  | nil =>
    intro a p _ _ w hw
    simp [sweepOne] at hw
  | cons hd rest ih =>
    obtain ⟨t, d⟩ := hd
    intro a p hsort hge w hw
    have hpt : p ≤ t := hge (t, d) (by simp)
    have hsort' : rest.Pairwise (fun a b => a.1 ≤ b.1) := (List.pairwise_cons.mp hsort).2
    have hrest_ge : ∀ e ∈ rest, t ≤ e.1 := (List.pairwise_cons.mp hsort).1
    have hunf : sweepOne a p ((t, d) :: rest) =
        (if a = 0 ∧ p < t then [(p, t)] else []) ++ sweepOne (a + d) t rest := by
      simp [sweepOne]
    rw [hunf] at hw
    rcases List.mem_append.mp hw with hmem | hmem
    · by_cases hcond : a = 0 ∧ p < t
      · rw [if_pos hcond] at hmem
        simp only [List.mem_singleton] at hmem
        subst hmem
        exact ⟨le_rfl, hcond.2, ⟨(t, d), by simp, le_rfl⟩⟩
      · rw [if_neg hcond] at hmem
        simp at hmem
    · obtain ⟨h1, h2, e, he, h3⟩ := ih (a + d) t hsort' hrest_ge w hmem
      exact ⟨by omega, h2, ⟨e, List.mem_cons_of_mem _ he, h3⟩⟩

/-- The windows the sweep emits are ordered: each ends at or before the next
begins. -/
theorem sweepOne_pairwise :
    ∀ (evs : List (Nat × Int)) (a : Int) (p : Nat),
      evs.Pairwise (fun a b => a.1 ≤ b.1) → (∀ e ∈ evs, p ≤ e.1) →
      (sweepOne a p evs).Pairwise (fun u v => u.2 ≤ v.1) := by
  intro evs
  induction evs with
  | nil =>
    intro a p _ _
    simp [sweepOne]
  | cons hd rest ih =>
    obtain ⟨t, d⟩ := hd
    intro a p hsort hge
    have hsort' : rest.Pairwise (fun a b => a.1 ≤ b.1) := (List.pairwise_cons.mp hsort).2
    have hrest_ge : ∀ e ∈ rest, t ≤ e.1 := (List.pairwise_cons.mp hsort).1
    have hunf : sweepOne a p ((t, d) :: rest) =
        (if a = 0 ∧ p < t then [(p, t)] else []) ++ sweepOne (a + d) t rest := by
      simp [sweepOne]
    rw [hunf]
    apply List.pairwise_append.mpr
    refine ⟨?_, ih (a + d) t hsort' hrest_ge, ?_⟩
    · split <;> simp
    · intro w1 hw1 w2 hw2
      have hb := sweepOne_bounds rest (a + d) t hsort' hrest_ge w2 hw2
      by_cases hcond : a = 0 ∧ p < t
      · rw [if_pos hcond] at hw1
        simp only [List.mem_singleton] at hw1
        subst hw1
        exact hb.1
      · rw [if_neg hcond] at hw1
        simp at hw1

/-! ### Facts about the merger's event list -/

/-- A clipped busy interval is nonempty and lies inside the search window. -/
theorem blockClipped_prop {parse : String → Nat} {S E : Nat} {b : Block} {i : Nat × Nat}
    (h : blockClipped parse S E b = some i) : S ≤ i.1 ∧ i.1 < i.2 ∧ i.2 ≤ E := by
  unfold blockClipped at h
  cases hbi : blockInterval parse b with
  | none => rw [hbi] at h; simp at h
  | some j =>
    rw [hbi] at h
    simp only [Option.some_bind] at h
    simp only [intersect_half_open_interval] at h
    split at h
    · obtain rfl := Option.some_injective _ h
      constructor
      · exact Nat.le_max_right _ _
      · constructor
        · assumption
        · exact Nat.min_le_right _ _
    · simp at h

/-- Every event of the merger carries a timestamp inside the search window. -/
theorem eventsOf_ts_mem (parse : String → Nat) (busy_schedules : List Person) (S E : Nat)
    (hSE : S ≤ E) : ∀ e ∈ eventsOf parse busy_schedules S E, S ≤ e.1 ∧ e.1 ≤ E := by
  intro e he
  unfold eventsOf at he
  rcases List.mem_append.mp he with hmem | hmem
  · obtain ⟨p, -, hin⟩ := List.mem_flatMap.mp hmem
    obtain ⟨b, -, hin⟩ := List.mem_flatMap.mp hin
    unfold blockEvents at hin
    cases hbc : blockClipped parse S E b with
    | none => rw [hbc] at hin; simp at hin
    | some i =>
      rw [hbc] at hin
      obtain ⟨s, ee⟩ := i
      have hS : S ≤ s := (blockClipped_prop hbc).1
      have hlt : s < ee := (blockClipped_prop hbc).2.1
      have hE : ee ≤ E := (blockClipped_prop hbc).2.2
      rcases List.mem_cons.mp hin with rfl | hin
      · exact ⟨hS, by omega⟩
      · rcases List.mem_cons.mp hin with rfl | hin
        · exact ⟨by omega, hE⟩
        · simp at hin
  · rcases List.mem_cons.mp hmem with rfl | hmem
    · exact ⟨le_rfl, hSE⟩
    · rcases List.mem_cons.mp hmem with rfl | hmem
      · exact ⟨hSE, le_rfl⟩
      · simp at hmem

theorem sortEvents_perm (l : List (Nat × Int)) : (sortEvents l).Perm l :=
  List.perm_insertionSort eventLE l

theorem sortEvents_ts_sorted (l : List (Nat × Int)) :
    (sortEvents l).Pairwise (fun a b => a.1 ≤ b.1) :=
  (List.sorted_insertionSort eventLE l).imp fun h => by unfold eventLE at h; omega

/-- Busy-count contribution of a single block: nonnegative, and zero exactly
when the block's clipped interval (if any) does not contain x. -/
theorem evsSum_blockEvents (parse : String → Nat) (S E x : Nat) (b : Block) :
    0 ≤ evsSum (blockEvents parse S E b) x ∧
      (evsSum (blockEvents parse S E b) x = 0 ↔
        ∀ i, blockClipped parse S E b = some i → ¬(i.1 ≤ x ∧ x < i.2)) := by
  unfold blockEvents
  cases hbc : blockClipped parse S E b with
  | none => simp [evsSum]
  | some i =>
    obtain ⟨s, e⟩ := i
    have hse : s < e := (blockClipped_prop hbc).2.1
    have hval : evsSum [(s, (1 : Int)), (e, -1)] x =
        (if s ≤ x then (1 : Int) else 0) + (if e ≤ x then (-1 : Int) else 0) := by
      simp [evsSum, busyDelta]
    rw [hval]
    constructor
    · split_ifs <;> omega
    · constructor
      · intro h0 j hj hcont
        obtain rfl : j = (s, e) := by injection hj with h; exact h.symm
        have hc1 : s ≤ x := hcont.1
        have hc2 : x < e := hcont.2
        rw [if_pos hc1, if_neg (by omega)] at h0
        omega
      · intro hfree
        have hne : ¬(s ≤ x ∧ x < e) := hfree (s, e) rfl
        rw [not_and, not_lt] at hne
        by_cases h1 : s ≤ x
        · rw [if_pos h1, if_pos (hne h1)]
          omega
        · rw [if_neg h1, if_neg (by omega : ¬e ≤ x)]
          omega

/-- Busy-count of a block list: nonnegative, and zero exactly when no block's
clipped interval contains x. -/
theorem evsSum_blocks (parse : String → Nat) (S E x : Nat) :
    ∀ l : List Block,
      0 ≤ evsSum (l.flatMap (blockEvents parse S E)) x ∧
        (evsSum (l.flatMap (blockEvents parse S E)) x = 0 ↔
          ∀ b ∈ l, ∀ i, blockClipped parse S E b = some i → ¬(i.1 ≤ x ∧ x < i.2)) := by
  intro l
  induction l with
  | nil => simp [evsSum]
  | cons b l ih =>
    have hb := evsSum_blockEvents parse S E x b
    rw [List.flatMap_cons, evsSum_append, List.forall_mem_cons]
    constructor
    · omega
    · constructor
      · intro h0
        have h1 : evsSum (blockEvents parse S E b) x = 0 := by omega
        have h2 : evsSum (l.flatMap (blockEvents parse S E)) x = 0 := by omega
        exact ⟨hb.2.mp h1, ih.2.mp h2⟩
      · rintro ⟨hhd, htl⟩
        rw [hb.2.mpr hhd, ih.2.mpr htl]
        omega

/-- Busy-count over all interviewers: nonnegative, and zero exactly when no
interviewer has a clipped busy interval containing x. -/
theorem evsSum_persons (parse : String → Nat) (S E x : Nat) :
    ∀ busy_schedules : List Person,
      0 ≤ evsSum (busy_schedules.flatMap fun p => p.busy.flatMap (blockEvents parse S E)) x ∧
        (evsSum (busy_schedules.flatMap fun p => p.busy.flatMap (blockEvents parse S E)) x = 0 ↔
          ∀ p ∈ busy_schedules, ∀ b ∈ p.busy, ∀ i,
            blockClipped parse S E b = some i → ¬(i.1 ≤ x ∧ x < i.2)) := by
  intro scheds
  induction scheds with
  | nil => simp [evsSum]
  | cons p scheds ih =>
    have hp := evsSum_blocks parse S E x p.busy
    rw [List.flatMap_cons, evsSum_append, List.forall_mem_cons]
    constructor
    · omega
    · constructor
      · intro h0
        have h1 : evsSum (p.busy.flatMap (blockEvents parse S E)) x = 0 := by omega
        have h2 : evsSum (scheds.flatMap fun q => q.busy.flatMap (blockEvents parse S E)) x = 0 := by
          omega
        exact ⟨hp.2.mp h1, ih.2.mp h2⟩
      · rintro ⟨hhd, htl⟩
        rw [hp.2.mpr hhd, ih.2.mpr htl]
        omega

/-- The two zero-delta boundary markers contribute nothing to the busy count. -/
theorem evsSum_eventsOf (parse : String → Nat) (busy_schedules : List Person) (S E x : Nat) :
    evsSum (eventsOf parse busy_schedules S E) x =
      evsSum (busy_schedules.flatMap fun p => p.busy.flatMap (blockEvents parse S E)) x := by
  unfold eventsOf
  rw [evsSum_append]
  simp [evsSum, busyDelta]

/-- Pointwise characterization of the merger output: x lies in some returned
window exactly when x lies in the search window and in no clipped busy
interval. -/
theorem compute_cover (parse : String → Nat) (busy_schedules : List Person) (S E : Nat)
    (hSE : S < E) (x : Nat) :
    (∃ w ∈ compute_common_free_windows parse busy_schedules S E, w.1 ≤ x ∧ x < w.2) ↔
      (S ≤ x ∧ x < E ∧ ∀ p ∈ busy_schedules, ∀ b ∈ p.busy, ∀ i,
        blockClipped parse S E b = some i → ¬(i.1 ≤ x ∧ x < i.2)) := by
  unfold compute_common_free_windows
  rw [sweep_eq_sweepOne]
  have hperm := sortEvents_perm (eventsOf parse busy_schedules S E)
  have hge : ∀ e ∈ sortEvents (eventsOf parse busy_schedules S E), S ≤ e.1 := fun e he =>
    (eventsOf_ts_mem parse busy_schedules S E (le_of_lt hSE) e (hperm.mem_iff.mp he)).1
  rw [sweepOne_cover x _ 0 S (sortEvents_ts_sorted _) hge]
  have hub : ∀ e ∈ sortEvents (eventsOf parse busy_schedules S E), e.1 ≤ E := fun e he =>
    (eventsOf_ts_mem parse busy_schedules S E (le_of_lt hSE) e (hperm.mem_iff.mp he)).2
  have hlt : (∃ e ∈ sortEvents (eventsOf parse busy_schedules S E), x < e.1) ↔ x < E := by
    constructor
    · rintro ⟨e, he, hxe⟩
      exact lt_of_lt_of_le hxe (hub e he)
    · intro hxE
      refine ⟨(E, 0), ?_, hxE⟩
      rw [hperm.mem_iff]
      unfold eventsOf
      simp
  rw [hlt, evsSum_perm hperm, evsSum_eventsOf, zero_add,
    (evsSum_persons parse S E x busy_schedules).2]

/-- Every returned window is nonempty and lies inside the search window. -/
theorem compute_window_bounds (parse : String → Nat) (busy_schedules : List Person) (S E : Nat)
    (hSE : S ≤ E) :
    ∀ w ∈ compute_common_free_windows parse busy_schedules S E,
      S ≤ w.1 ∧ w.1 < w.2 ∧ w.2 ≤ E := by
  intro w hw
  unfold compute_common_free_windows at hw
  rw [sweep_eq_sweepOne] at hw
  have hperm := sortEvents_perm (eventsOf parse busy_schedules S E)
  have hge : ∀ e ∈ sortEvents (eventsOf parse busy_schedules S E), S ≤ e.1 := fun e he =>
    (eventsOf_ts_mem parse busy_schedules S E hSE e (hperm.mem_iff.mp he)).1
  obtain ⟨h1, h2, e, he, h3⟩ :=
    sweepOne_bounds _ 0 S (sortEvents_ts_sorted _) hge w hw
  exact ⟨h1, h2,
    le_trans h3 (eventsOf_ts_mem parse busy_schedules S E hSE e (hperm.mem_iff.mp he)).2⟩

/-- The returned windows are ordered: each ends at or before the next begins. -/
theorem compute_windows_pairwise (parse : String → Nat) (busy_schedules : List Person)
    (S E : Nat) (hSE : S ≤ E) :
    (compute_common_free_windows parse busy_schedules S E).Pairwise
      (fun u v => u.2 ≤ v.1) := by
  unfold compute_common_free_windows
  rw [sweep_eq_sweepOne]
  have hperm := sortEvents_perm (eventsOf parse busy_schedules S E)
  exact sweepOne_pairwise _ 0 S (sortEvents_ts_sorted _) fun e he =>
    (eventsOf_ts_mem parse busy_schedules S E hSE e (hperm.mem_iff.mp he)).1

/-- With no busy blocks at all, the event list is just the two boundary markers
and the sweep returns the whole search window. -/
theorem compute_no_busy (parse : String → Nat) (busy_schedules : List Person) (S E : Nat)
    (hSE : S < E) (h : ∀ p ∈ busy_schedules, p.busy = []) :
    compute_common_free_windows parse busy_schedules S E = [(S, E)] := by
  have h1 : (busy_schedules.flatMap fun p => p.busy.flatMap (blockEvents parse S E)) = [] := by
    apply List.eq_nil_iff_forall_not_mem.mpr
    intro e he
    obtain ⟨p, hp, hin⟩ := List.mem_flatMap.mp he
    rw [h p hp] at hin
    simp at hin
  unfold compute_common_free_windows eventsOf
  rw [h1, List.nil_append]
  have h2 : sortEvents [(S, (0 : Int)), (E, 0)] = [(S, 0), (E, 0)] := by
    have hle : eventLE (S, 0) (E, 0) := Or.inl hSE
    unfold sortEvents
    simp [List.insertionSort, List.orderedInsert, hle]
  rw [h2, sweep_eq_sweepOne]
  simp [sweepOne, hSE, lt_irrefl]

/-- C2: for every busy-schedule collection and every search window with
searchStart < searchEnd, compute_common_free_windows returns nonempty windows
in ascending order that are pairwise disjoint, whose union is exactly the
search window minus the union of the valid busy intervals clipped to it; with
zero subjects or zero busy intervals it returns exactly the whole window. -/
theorem merger_correctness (parse : String → Nat) (busy_schedules : List Person)
    (searchStart searchEnd : Nat) (h : searchStart < searchEnd) :
    (∀ w ∈ compute_common_free_windows parse busy_schedules searchStart searchEnd,
        w.1 < w.2) ∧
    (compute_common_free_windows parse busy_schedules searchStart searchEnd).Pairwise
      (fun u v => u.2 ≤ v.1) ∧
    (∀ x : Nat,
      (∃ w ∈ compute_common_free_windows parse busy_schedules searchStart searchEnd,
          w.1 ≤ x ∧ x < w.2) ↔
        (searchStart ≤ x ∧ x < searchEnd ∧ ∀ p ∈ busy_schedules, ∀ b ∈ p.busy, ∀ i,
          blockClipped parse searchStart searchEnd b = some i → ¬(i.1 ≤ x ∧ x < i.2))) ∧
    ((busy_schedules = [] ∨ ∀ p ∈ busy_schedules, p.busy = []) →
      compute_common_free_windows parse busy_schedules searchStart searchEnd
        = [(searchStart, searchEnd)]) := by
  refine ⟨fun w hw => (compute_window_bounds parse busy_schedules searchStart searchEnd
      (le_of_lt h) w hw).2.1,
    compute_windows_pairwise parse busy_schedules searchStart searchEnd (le_of_lt h),
    fun x => compute_cover parse busy_schedules searchStart searchEnd h x,
    fun hb => ?_⟩
  rcases hb with rfl | hb
  · exact compute_no_busy parse [] searchStart searchEnd h (by simp)
  · exact compute_no_busy parse busy_schedules searchStart searchEnd h hb

/-- C2 witness: the empty schedule collection over the window [0, 100) yields
exactly the whole window. -/
theorem merger_correctness_witness :
    compute_common_free_windows (fun _ => 0) [] 0 100 = [(0, 100)] :=
  (merger_correctness (fun _ => 0) [] 0 100 (by decide)).2.2.2 (Or.inl rfl)

/-! ### The tie-break scenario of C3, evaluated concretely -/

/-- Concrete stand-in for parse_iso8601 on the four instants of the tie-break
scenario, on the UTC day of epoch 0: 09:00, 10:00, 11:00, 12:00, 13:00. -/
def parse3 : String → Nat := fun s =>
  if s = "t10" then 36000000000
  else if s = "t11" then 39600000000
  else if s = "t12" then 43200000000
  else 0

/-- Subject A of the tie-break scenario: busy [10:00, 11:00). -/
def schedA : Person :=
  { interviewerId := 1, name := some "A",
    busy := [{ start := some "t10", end_ := some "t11", startTime := none, endTime := none }] }

/-- Subject B of the tie-break scenario: busy [11:00, 12:00). -/
def schedB : Person :=
  { interviewerId := 2, name := some "B",
    busy := [{ start := some "t11", end_ := some "t12", startTime := none, endTime := none }] }

/-- C3 counterexample: with A busy [10:00, 11:00) and B busy [11:00, 12:00)
inside the search window [09:00, 13:00), the merger returns [09:00, 10:00) and
[12:00, 13:00) only: no returned window starts or ends at 11:00, and 11:00 lies
inside B's valid busy interval, so the claim that 11:00 is free and that a
window boundary exists there is false on this input. -/
theorem tie_break_counterexample :
    compute_common_free_windows parse3 [schedA, schedB] 32400000000 46800000000
        = [(32400000000, 36000000000), (43200000000, 46800000000)] ∧
    (¬∃ w ∈ compute_common_free_windows parse3 [schedA, schedB] 32400000000 46800000000,
        w.1 = 39600000000 ∨ w.2 = 39600000000) ∧
    blockInterval parse3
        { start := some "t11", end_ := some "t12", startTime := none, endTime := none }
      = some (39600000000, 43200000000) ∧
    39600000000 < 43200000000 := by
  refine ⟨by decide, by decide, by decide, by decide⟩

/-- C3 amended: in the same scenario the touching busy intervals merge with no
spurious gap: the merger returns exactly [09:00, 10:00) and [12:00, 13:00), the
instant 11:00 is covered by no returned window (it is busy for B, whose
half-open interval [11:00, 12:00) contains it), and no returned window has a
boundary at 11:00. -/
theorem tie_break_amended :
    compute_common_free_windows parse3 [schedA, schedB] 32400000000 46800000000
        = [(32400000000, 36000000000), (43200000000, 46800000000)] ∧
    (¬∃ w ∈ compute_common_free_windows parse3 [schedA, schedB] 32400000000 46800000000,
        w.1 ≤ 39600000000 ∧ 39600000000 < w.2) ∧
    (¬∃ w ∈ compute_common_free_windows parse3 [schedA, schedB] 32400000000 46800000000,
        w.1 = 39600000000 ∨ w.2 = 39600000000) := by
  refine ⟨by decide, by decide, by decide⟩

/-! ### Workday containment and slot expansion -/

/-- C6: a candidate slot passes the workday filter exactly when dayOpen <= start
and end <= dayClose, where dayOpen and dayClose sit on the start's own UTC
calendar date at the configured hours; a slot ending exactly at dayClose
passes, and a slot whose end falls on a later calendar date than its start
fails (for any end hour in the valid 0-23 range). -/
theorem workday_containment :
    ∀ slot_start slot_end workday_start_hour workday_end_hour : Nat,
      (is_within_workday_utc slot_start slot_end workday_start_hour workday_end_hour = true ↔
        (replace_hour_floor slot_start workday_start_hour ≤ slot_start ∧
          slot_end ≤ replace_hour_floor slot_start workday_end_hour)) ∧
      (replace_hour_floor slot_start workday_start_hour ≤ slot_start →
        is_within_workday_utc slot_start (replace_hour_floor slot_start workday_end_hour)
          workday_start_hour workday_end_hour = true) ∧
      (workday_end_hour ≤ 23 → slot_start / DAY_US < slot_end / DAY_US →
        is_within_workday_utc slot_start slot_end workday_start_hour workday_end_hour
          = false) := by
  intro s e wsh weh
  refine ⟨by simp [is_within_workday_utc], ?_, ?_⟩
  · intro h
    simp [is_within_workday_utc]
    exact h
  · intro h23 hday
    simp only [is_within_workday_utc, replace_hour_floor, DAY_US, HOUR_US] at *
    rw [decide_eq_false_iff_not]
    rw [not_and]
    intro _
    omega

/-- C6 witness: on day 0 with workday hours 9-17, the slot [09:00, 17:00) ending
exactly at dayClose passes, and the slot [09:00, day 1 at 01:00) whose end falls
on the next calendar date fails. -/
theorem workday_containment_witness :
    is_within_workday_utc 32400000000 61200000000 9 17 = true ∧
    is_within_workday_utc 32400000000 90000000000 9 17 = false :=
  ⟨(workday_containment 32400000000 61200000000 9 17).2.1 (by decide),
   (workday_containment 32400000000 90000000000 9 17).2.2 (by decide) (by decide)⟩

/-- Every slot the expansion loop emits starts at or after the loop's starting
point, has exactly the requested duration, fits inside the window, and passes
the workday filter. -/
theorem expand_window_slots_mem :
    ∀ (fuel slot_start window_end dur wsh weh : Nat) (sl : Nat × Nat),
      sl ∈ expand_window_slots fuel slot_start window_end dur wsh weh →
      slot_start ≤ sl.1 ∧ sl.2 = sl.1 + dur ∧ sl.2 ≤ window_end ∧
        is_within_workday_utc sl.1 sl.2 wsh weh = true := by
  intro fuel
  induction fuel with
  | zero =>
    intro s0 wend dur wsh weh sl hmem
    simp [expand_window_slots] at hmem
  | succ n ih =>
    intro s0 wend dur wsh weh sl hmem
    simp only [expand_window_slots] at hmem
    split at hmem
    · rcases List.mem_append.mp hmem with hin | hin
      · split at hin
        · simp only [List.mem_singleton] at hin
          subst hin
          refine ⟨le_rfl, rfl, by assumption, by assumption⟩
        · simp at hin
      · have := ih (s0 + HALF_HOUR) wend dur wsh weh sl hin
        exact ⟨le_trans (Nat.le_add_right _ _) this.1, this.2⟩
    · simp at hmem

/-- Successful runs of the view: the returned slots are exactly the expansion
of the merger's windows for the defaulted search range, with the minimum slot
start floored by the 24-hour notice rule and snapped to the half-hour grid. -/
theorem availability_ok_spec {duration_minutes : Nat} {q : Query} {now : Nat}
    {parse : String → Nat} {busy_schedules : List Person} {slots : List (Nat × Nat)}
    (h : availability_get duration_minutes q now parse busy_schedules = Except.ok slots) :
    ∃ search_start search_end wsh weh,
      search_start < search_end ∧
      slots = expand_windows
        (compute_common_free_windows parse busy_schedules search_start search_end)
        (ceil_to_half_hour_boundary (max search_start (now + 24 * HOUR_US)))
        (duration_minutes * USEC_MIN) wsh weh := by
  simp only [availability_get] at h
  split at h
  · exact Except.noConfusion h
  split at h
  · exact Except.noConfusion h
  split at h
  · exact Except.noConfusion h
  split at h
  · exact Except.noConfusion h
  split at h
  · exact Except.noConfusion h
  split at h
  · exact Except.noConfusion h
  injection h with h
  refine ⟨_, _, _, _, by omega, h.symm⟩

/-! ### Claims about the view's computation -/

/-- C5: every slot emitted by a successful availability computation starts at or
after ceil_to_half_hour_boundary(now + 24 hours), regardless of the requested
search window. -/
theorem notice_floor (duration_minutes : Nat) (q : Query) (now : Nat) (parse : String → Nat)
    (busy_schedules : List Person) (slots : List (Nat × Nat))
    (h : availability_get duration_minutes q now parse busy_schedules = Except.ok slots) :
    ∀ sl ∈ slots, ceil_to_half_hour_boundary (now + 24 * HOUR_US) ≤ sl.1 := by
  obtain ⟨S, E, wsh, weh, hSE, rfl⟩ := availability_ok_spec h
  intro sl hsl
  unfold expand_windows at hsl
  obtain ⟨w, hw, hmem⟩ := List.mem_flatMap.mp hsl
  have h1 := (expand_window_slots_mem _ _ _ _ _ _ sl hmem).1
  have h2 : ceil_to_half_hour_boundary (now + 24 * HOUR_US) ≤
      ceil_to_half_hour_boundary (max S (now + 24 * HOUR_US)) :=
    ceil_mono (le_max_right _ _)
  have h3 : ceil_to_half_hour_boundary (max S (now + 24 * HOUR_US)) ≤
      ceil_to_half_hour_boundary
        (max w.1 (ceil_to_half_hour_boundary (max S (now + 24 * HOUR_US)))) :=
    le_trans (le_max_right _ _) (le_ceil _)
  omega

/-- Concrete parse table for the witness run: one busy block on day 1 from
10:00 to 10:30 UTC. -/
def parseW : String → Nat := fun s =>
  if s = "b1" then 122400000000 else if s = "b2" then 124200000000 else 0

/-- Witness interviewer with the one busy block. -/
def schedW : Person :=
  { interviewerId := 1, name := some "W",
    busy := [{ start := some "b1", end_ := some "b2", startTime := none, endTime := none }] }

/-- Witness query: search day 1 from 09:00 to 12:00 UTC, default work hours. -/
def queryW : Query :=
  { start := some 118800000000, end_ := some 129600000000,
    start_hour := none, end_hour := none }

/-- Slots the view returns on the witness input (09:00-10:00, 10:30-11:30 and
11:00-12:00 on day 1). -/
def witnessSlots : List (Nat × Nat) :=
  [(118800000000, 122400000000), (124200000000, 127800000000), (126000000000, 129600000000)]

/-- C5 witness: the witness run succeeds and every returned slot starts at or
after the ceiled 24-hour notice floor. -/
theorem notice_floor_witness :
    availability_get 60 queryW 0 parseW [schedW] = Except.ok witnessSlots ∧
      ∀ sl ∈ witnessSlots, ceil_to_half_hour_boundary (0 + 24 * HOUR_US) ≤ sl.1 :=
  ⟨rfl, notice_floor 60 queryW 0 parseW [schedW] witnessSlots rfl⟩

/-- C1: in every successful availability computation, every emitted slot spans
exactly durationMinutes and overlaps no interviewer's valid busy interval,
where two half-open intervals overlap iff max of the starts < min of the ends. -/
theorem all_free_invariant (duration_minutes : Nat) (q : Query) (now : Nat)
    (parse : String → Nat) (busy_schedules : List Person) (slots : List (Nat × Nat))
    (h : availability_get duration_minutes q now parse busy_schedules = Except.ok slots) :
    ∀ sl ∈ slots, sl.2 = sl.1 + duration_minutes * USEC_MIN ∧
      ∀ p ∈ busy_schedules, ∀ b ∈ p.busy, ∀ i, blockInterval parse b = some i →
        ¬(max i.1 sl.1 < min i.2 sl.2) := by
  obtain ⟨S, E, wsh, weh, hSE, rfl⟩ := availability_ok_spec h
  intro sl hsl
  unfold expand_windows at hsl
  obtain ⟨w, hw, hmem⟩ := List.mem_flatMap.mp hsl
  obtain ⟨hge, hdur, hle, -⟩ := expand_window_slots_mem _ _ _ _ _ _ sl hmem
  refine ⟨hdur, ?_⟩
  intro p hp b hb i hi hoverlap
  have hw1 : w.1 ≤ sl.1 := le_trans (le_trans (le_max_left _ _) (le_ceil _)) hge
  obtain ⟨hcx1, hcx2, hfree⟩ :=
    (compute_cover parse busy_schedules S E hSE (max i.1 sl.1)).mp
      ⟨w, hw, by omega, by omega⟩
  have hclip : blockClipped parse S E b = some (max i.1 S, min i.2 E) := by
    unfold blockClipped
    rw [hi]
    simp only [Option.some_bind, intersect_half_open_interval]
    rw [if_pos (by omega)]
  exact hfree p hp b hb _ hclip ⟨by omega, by omega⟩

/-- C1 witness: the witness run succeeds, and on its output the duration and
no-overlap conclusions hold for the fetched schedule. -/
theorem all_free_invariant_witness :
    availability_get 60 queryW 0 parseW [schedW] = Except.ok witnessSlots ∧
      ∀ sl ∈ witnessSlots, sl.2 = sl.1 + 60 * USEC_MIN ∧
        ∀ p ∈ [schedW], ∀ b ∈ p.busy, ∀ i, blockInterval parseW b = some i →
          ¬(max i.1 sl.1 < min i.2 sl.2) :=
  ⟨rfl, all_free_invariant 60 queryW 0 parseW [schedW] witnessSlots rfl⟩

/-- C7: if the defaulted search range or workday hours are invalid, the view
rejects the request with an error message that does not depend on the schedule
fetch or its result: no sweep or expansion output is produced. -/
theorem invalid_range_short_circuit (duration_minutes : Nat) (q : Query) (now : Nat)
    (hbad :
      q.end_.getD (q.start.getD (now + 24 * HOUR_US) + DEFAULT_SEARCH_DAYS * DAY_US) ≤
          q.start.getD (now + 24 * HOUR_US) ∨
        q.end_hour.getD DEFAULT_END_HOUR ≤ q.start_hour.getD DEFAULT_START_HOUR) :
    ∃ msg, ∀ (parse : String → Nat) (busy_schedules : List Person),
      availability_get duration_minutes q now parse busy_schedules = Except.error msg := by
  by_cases h1 : hourOutOfRange q.start_hour = true
  · exact ⟨_, fun parse bs => by simp only [availability_get]; rw [if_pos h1]⟩
  by_cases h2 : hourOutOfRange q.end_hour = true
  · exact ⟨_, fun parse bs => by simp only [availability_get]; rw [if_neg h1, if_pos h2]⟩
  by_cases h3 : serializerRangeBad q.start q.end_ = true
  · exact ⟨_, fun parse bs => by
      simp only [availability_get]; rw [if_neg h1, if_neg h2, if_pos h3]⟩
  by_cases h4 : serializerHoursBad q.start_hour q.end_hour = true
  · exact ⟨_, fun parse bs => by
      simp only [availability_get]; rw [if_neg h1, if_neg h2, if_neg h3, if_pos h4]⟩
  by_cases h5 : q.end_.getD (q.start.getD (now + 24 * HOUR_US) + DEFAULT_SEARCH_DAYS * DAY_US) ≤
      q.start.getD (now + 24 * HOUR_US)
  · exact ⟨_, fun parse bs => by
      simp only [availability_get]
      rw [if_neg h1, if_neg h2, if_neg h3, if_neg h4, if_pos h5]⟩
  · have h6 : q.end_hour.getD DEFAULT_END_HOUR ≤ q.start_hour.getD DEFAULT_START_HOUR :=
      hbad.resolve_left h5
    exact ⟨_, fun parse bs => by
      simp only [availability_get]
      rw [if_neg h1, if_neg h2, if_neg h3, if_neg h4, if_neg h5, if_pos h6]⟩

/-- C7 witness: a query whose provided end precedes its provided start is
rejected with the same error for every parse function and schedule collection. -/
theorem invalid_range_short_circuit_witness :
    ∃ msg, ∀ (parse : String → Nat) (busy_schedules : List Person),
      availability_get 60
        { start := some 100, end_ := some 50, start_hour := none, end_hour := none }
        0 parse busy_schedules = Except.error msg :=
  invalid_range_short_circuit 60
    { start := some 100, end_ := some 50, start_hour := none, end_hour := none }
    0 (by decide)

/-- C8: a busy block with a missing (or falsy) start or end, or whose parsed
start >= end, contributes nothing: the merger's output over any schedule
collection containing it equals the output with the block removed. -/
theorem malformed_interval_tolerance (parse : String → Nat) (S E : Nat)
    (pre post : List Person) (p : Person) (l1 l2 : List Block) (b : Block)
    (hbad : rawField b.start b.startTime = none ∨ rawField b.end_ b.endTime = none ∨
      ∃ rs re, rawField b.start b.startTime = some rs ∧
        rawField b.end_ b.endTime = some re ∧ parse re ≤ parse rs) :
    compute_common_free_windows parse (pre ++ { p with busy := l1 ++ b :: l2 } :: post) S E =
      compute_common_free_windows parse (pre ++ { p with busy := l1 ++ l2 } :: post) S E := by
  have hev : blockEvents parse S E b = [] := by
    unfold blockEvents blockClipped blockInterval
    rcases hbad with h | h | ⟨rs, re, h1, h2, h3⟩
    · rw [h]
      cases rawField b.end_ b.endTime <;> rfl
    · rw [h]
      cases rawField b.start b.startTime <;> rfl
    · simp [h1, h2, h3]
  unfold compute_common_free_windows eventsOf
  simp [List.flatMap_append, List.flatMap_cons, hev]

/-- C8 witness: a block with both keys missing on the start side is dropped
from a concrete one-person schedule without changing the result. -/
theorem malformed_interval_tolerance_witness :
    compute_common_free_windows parse3
        ([] ++ { schedA with busy := [] ++
          { start := none, end_ := some "t12", startTime := none, endTime := none } :: [] }
          :: []) 32400000000 46800000000 =
      compute_common_free_windows parse3
        ([] ++ { schedA with busy := ([] : List Block) ++ [] } :: []) 32400000000 46800000000 :=
  malformed_interval_tolerance parse3 32400000000 46800000000 [] [] schedA [] []
    { start := none, end_ := some "t12", startTime := none, endTime := none }
    (Or.inl (by decide))

/-- A truthy primary key is used as-is. -/
theorem rawField_primary {u : String} (hu : u ≠ "") : rawField (some u) none = some u := by
  simp [rawField, pyOr, truthy, hu]

/-- With the primary key absent, a truthy legacy key is used identically. -/
theorem rawField_legacy {u : String} (hu : u ≠ "") : rawField none (some u) = some u := by
  simp [rawField, pyOr, truthy, hu]

/-- C10: the merger and the human-readable busy formatter treat a block carrying
only the legacy startTime/endTime keys identically to one carrying start/end,
and a side of a block counts as missing exactly when neither of its keys holds
a truthy value. -/
theorem legacy_key_fallback (parse : String → Nat) (fmt : String → String) (S E : Nat)
    (pre post : List Person) (p : Person) (l1 l2 : List Block) (s e : String)
    (hs : s ≠ "") (he : e ≠ "") :
    (compute_common_free_windows parse
        (pre ++ { p with busy := l1 ++
          { start := some s, end_ := some e, startTime := none, endTime := none } :: l2 }
          :: post) S E =
      compute_common_free_windows parse
        (pre ++ { p with busy := l1 ++
          { start := none, end_ := none, startTime := some s, endTime := some e } :: l2 }
          :: post) S E) ∧
    (format_interviewer_busy_times_human_readable fmt
        (pre ++ { p with busy := l1 ++
          { start := some s, end_ := some e, startTime := none, endTime := none } :: l2 }
          :: post) =
      format_interviewer_busy_times_human_readable fmt
        (pre ++ { p with busy := l1 ++
          { start := none, end_ := none, startTime := some s, endTime := some e } :: l2 }
          :: post)) ∧
    (∀ a b : Option String, rawField a b = none ↔ truthy a = false ∧ truthy b = false) := by
  have hev : blockEvents parse S E
      { start := some s, end_ := some e, startTime := none, endTime := none } =
      blockEvents parse S E
      { start := none, end_ := none, startTime := some s, endTime := some e } := by
    unfold blockEvents blockClipped blockInterval
    rw [rawField_primary hs, rawField_primary he, rawField_legacy hs, rawField_legacy he]
  refine ⟨?_, ?_, ?_⟩
  · unfold compute_common_free_windows eventsOf
    simp [List.flatMap_append, List.flatMap_cons, hev]
  · unfold format_interviewer_busy_times_human_readable
    simp [List.filterMap_append, List.filterMap_cons,
      rawField_primary hs, rawField_primary he, rawField_legacy hs, rawField_legacy he]
  · intro a b
    rcases a with - | u <;> rcases b with - | v
    · simp [rawField, pyOr, truthy]
    · by_cases hv : v = "" <;> simp [rawField, pyOr, truthy, hv]
    · by_cases hu : u = "" <;> simp [rawField, pyOr, truthy, hu]
    · by_cases hu : u = "" <;> by_cases hv : v = "" <;>
        simp [rawField, pyOr, truthy, hu, hv]

/-- C10 witness: a concrete legacy-only block is processed exactly like its
primary-keys twin, by the merger and by the formatter. -/
theorem legacy_key_fallback_witness :
    (compute_common_free_windows parse3
        ([] ++ { schedA with busy := [] ++
          { start := some "t10", end_ := some "t11", startTime := none, endTime := none }
          :: [] } :: []) 32400000000 46800000000 =
      compute_common_free_windows parse3
        ([] ++ { schedA with busy := [] ++
          { start := none, end_ := none, startTime := some "t10", endTime := some "t11" }
          :: [] } :: []) 32400000000 46800000000) ∧
    (format_interviewer_busy_times_human_readable id
        ([] ++ { schedA with busy := [] ++
          { start := some "t10", end_ := some "t11", startTime := none, endTime := none }
          :: [] } :: []) =
      format_interviewer_busy_times_human_readable id
        ([] ++ { schedA with busy := [] ++
          { start := none, end_ := none, startTime := some "t10", endTime := some "t11" }
          :: [] } :: [])) ∧
    (∀ a b : Option String, rawField a b = none ↔ truthy a = false ∧ truthy b = false) :=
  legacy_key_fallback parse3 id 32400000000 46800000000 [] [] schedA [] []
    "t10" "t11" (by decide) (by decide)

end Interviews
